import Mathlib

/-!
Verification of the IELTS practice application's audio-clip playback queue
(`useAudioClipQueue`, file `src/unnamed/part_000`) and of the speaking-test
phase controller (`AIPracticeSpeakingTest`, file `src/unnamed/part_001`).

The playback queue is an async function running on the single-threaded
JavaScript event loop.  Its only suspension points are the awaits of the
per-attempt playback promise; everything between two awaits runs atomically.
We embed it as a deterministic interpreter parameterised by two oracles:
`ok i a` tells whether attempt `a` of clip `i` succeeds, and `env t` lists
the external calls (a `stop()` call, or the synchronous prefix of a second
superseding `playClips` call) that run while the interpreter is suspended at
its t-th await.  The interpreter also emits an event trace recording clip
starts, resource creation (the object URL produced by `pcm16Base64ToWavUrl`),
attempt completion, resource release (`URL.revokeObjectURL`), and the
external calls, in program order.  The `muted` flag of the hook only sets
the volume of the audio element and affects no property stated here, so it
is not carried by the model.
-/

namespace AudioQueue

/-- A clip handed to `playClips`: mirror of the `PcmClip` type of the source
(the optional `text` and `sampleRate` fields affect no modelled behaviour;
`sampleRate` only parameterises the decode). -/
structure PcmClip where
  key : String
  audioBase64 : String
deriving DecidableEq, Repr

/-- Observable state of the `useAudioClipQueue` hook: the `playSessionRef`
counter and the three pieces of React state. -/
structure QueueState where
  playSession : Nat
  isSpeaking : Bool
  currentClipKey : Option String
  failedClips : List String
deriving DecidableEq, Repr

/-- The `stop` callback of the hook: bump the session counter, clear the
speaking flag and the current clip key. -/
def stop (s : QueueState) : QueueState :=
  { s with playSession := s.playSession + 1, isSpeaking := false, currentClipKey := none }

/-- An external call that can run while a `playClips` run is suspended at an
await: a `stop()` call, or the synchronous prefix of a second `playClips`
call (which increments the session counter, sets `isSpeaking` and resets
`failedClips` before its own first await). -/
inductive EnvAct where
  | stop
  | supersede
deriving DecidableEq, Repr

/-- Effect of one external call on the shared hook state. -/
def applyEnvAct (s : QueueState) : EnvAct → QueueState
  | .stop => stop s
  | .supersede =>
      { s with playSession := s.playSession + 1, isSpeaking := true, failedClips := [] }

/-- Events emitted by a `playClips` run, in program order.  `decode i a` is
the creation of the transient object URL for attempt `a` of clip `i`,
`attemptEnd` is the settling of the playback promise, `revoke` is the
`URL.revokeObjectURL` call in the `finally` block, and `ext` records an
external call that ran during an await. -/
inductive QEv where
  | clipStart (i : Nat) (key : String)
  | decode (i a : Nat)
  | attemptEnd (i a : Nat) (ok : Bool)
  | revoke (i a : Nat)
  | ext (e : EnvAct)
deriving DecidableEq, Repr

/-- Result of running a retry loop or the clip loop: final state, emitted
trace, success flag (meaningful for the retry loop only) and the global
await counter. -/
structure RunRes where
  st : QueueState
  tr : List QEv
  succ : Bool
  clock : Nat
deriving Repr

/-- The retry loop of `playClips` for clip `i`, starting at attempt number
`a` with `rem` attempts still allowed (the source loop
`while (attempts <= retryCount && !success)` makes `retryCount + 1` attempts
when every attempt fails).  Each attempt decodes the payload to a fresh URL,
awaits playback (during which the external calls `env t` run), and revokes
the URL in a `finally` regardless of the outcome.  Note that this loop does
not consult the session counter. -/
def runAttempts (ok : Nat → Nat → Bool) (env : Nat → List EnvAct) (i : Nat) :
    Nat → Nat → Nat → QueueState → RunRes
  | _, 0, t, s => ⟨s, [], false, t⟩
  | a, rem + 1, t, s =>
    let s1 := (env t).foldl applyEnvAct s
    let evs := QEv.decode i a ::
      ((env t).map QEv.ext ++ [QEv.attemptEnd i a (ok i a), QEv.revoke i a])
    if ok i a then ⟨s1, evs, true, t + 1⟩
    else
      let r := runAttempts ok env i (a + 1) rem (t + 1) s1
      ⟨r.st, evs ++ r.tr, r.succ, r.clock⟩

/-- The `for (const clip of clips)` loop of `playClips`.  At the top of every
iteration the session counter is compared with the session id `sid` captured
at the start of the run; on mismatch the loop breaks.  Otherwise the current
clip key is published, the retry loop runs, and a clip whose every attempt
failed is appended to `failedClips`. -/
def runClips (ok : Nat → Nat → Bool) (env : Nat → List EnvAct) (retryCount sid : Nat) :
    List PcmClip → Nat → Nat → QueueState → RunRes
  | [], _, t, s => ⟨s, [], true, t⟩
  | c :: rest, i, t, s =>
    if s.playSession ≠ sid then ⟨s, [], true, t⟩
    else
      let s0 := { s with currentClipKey := some c.key }
      let r := runAttempts ok env i 0 (retryCount + 1) t s0
      let s2 := if r.succ then r.st
                else { r.st with failedClips := r.st.failedClips ++ [c.key] }
      let r2 := runClips ok env retryCount sid rest (i + 1) r.clock s2
      ⟨r2.st, QEv.clipStart i c.key :: (r.tr ++ r2.tr), r2.succ, r2.clock⟩

/-- Result of a whole `playClips` call: final observable state and trace. -/
structure PlayRes where
  st : QueueState
  tr : List QEv
deriving Repr

/-- The `playClips` callback.  An empty clip list returns at once, before the
session counter is touched.  Otherwise a fresh session id is taken
(`++playSessionRef.current`), `isSpeaking` is set and `failedClips` reset,
the clip loop runs, and finally `isSpeaking` and `currentClipKey` are
cleared only if the run still owns the session. -/
def playClips (ok : Nat → Nat → Bool) (env : Nat → List EnvAct)
    (clips : List PcmClip) (retryCount : Nat) (s : QueueState) : PlayRes :=
  if clips.isEmpty then ⟨s, []⟩
  else
    let sid := s.playSession + 1
    let s1 : QueueState := { s with playSession := sid, isSpeaking := true, failedClips := [] }
    let r := runClips ok env retryCount sid clips 0 0 s1
    if r.st.playSession = sid then
      ⟨{ r.st with isSpeaking := false, currentClipKey := none }, r.tr⟩
    else ⟨r.st, r.tr⟩

/-- Environment oracle of an undisturbed run: no `stop()` and no second
`playClips` call while the run is in flight. -/
def noEnv : Nat → List EnvAct := fun _ => []

/-- Recognises the `clipStart` events of a trace. -/
def isClipStart : QEv → Bool
  | .clipStart _ _ => true
  | _ => false

/-- Recognises the recorded external calls of a trace. -/
def isExt : QEv → Bool
  | .ext _ => true
  | _ => false

/-- Clip index carried by an event (external calls are indexed 0; an
undisturbed run emits none). -/
def evIdx : QEv → Nat
  | .clipStart i _ => i
  | .decode i _ => i
  | .attemptEnd i _ _ => i
  | .revoke i _ => i
  | .ext _ => 0

/-- Recognises the decode event of any attempt of clip `i`. -/
def isDecodeOf (i : Nat) : QEv → Bool
  | .decode j _ => j == i
  | _ => false

/-- Recognises the two resource events (decode and revoke) of attempt `a` of
clip `i`. -/
def resEvts (i a : Nat) : QEv → Bool
  | .decode j b => j == i && b == a
  | .revoke j b => j == i && b == a
  | _ => false

/-- A session id is the active one exactly when it matches the current value
of the session counter; this is the test the clip loop performs. -/
def activeSession (s : QueueState) (sid : Nat) : Prop :=
  s.playSession = sid

/-- Trace of the retry loop of an undisturbed run, starting at attempt `a`
with `rem` attempts allowed: a closed form used to characterise `runAttempts`
when `env` is `noEnv`. -/
def attemptsTraceFrom (ok : Nat → Nat → Bool) (i : Nat) : Nat → Nat → List QEv
  | _, 0 => []
  | a, rem + 1 =>
    QEv.decode i a :: QEv.attemptEnd i a (ok i a) :: QEv.revoke i a ::
      (if ok i a then [] else attemptsTraceFrom ok i (a + 1) rem)

/-- Whether the retry loop starting at attempt `a` with `rem` attempts
allowed eventually succeeds. -/
def succFrom (ok : Nat → Nat → Bool) (i : Nat) : Nat → Nat → Bool
  | _, 0 => false
  | a, rem + 1 => ok i a || succFrom ok i (a + 1) rem

/-- Trace of the clip loop of an undisturbed run starting at clip index `i`:
one block per clip, in list order. -/
def clipsTraceFrom (ok : Nat → Nat → Bool) (retryCount : Nat) :
    List PcmClip → Nat → List QEv
  | [], _ => []
  | c :: rest, i =>
    QEv.clipStart i c.key ::
      (attemptsTraceFrom ok i 0 (retryCount + 1) ++ clipsTraceFrom ok retryCount rest (i + 1))

/-- Keys accumulated in `failedClips` by an undisturbed run starting at clip
index `i`: the keys of exactly those clips whose every attempt fails, in
list order. -/
def failedKeysFrom (ok : Nat → Nat → Bool) (retryCount : Nat) :
    List PcmClip → Nat → List String
  | [], _ => []
  | c :: rest, i =>
    (if succFrom ok i 0 (retryCount + 1) then [] else [c.key]) ++
      failedKeysFrom ok retryCount rest (i + 1)

end AudioQueue

/-!
Model of the speaking-test page `AIPracticeSpeakingTest`
(file `src/unnamed/part_001`): the phase enumeration, the per-part recording
records, the submission path of `handleCompleteTest`, and the countdown-timer
effect.  External collaborators (the microphone, the FileReader base64
encoder, the AI voice channel, the evaluation endpoint) are oracles: the
encoder is an opaque function parameter and the evaluation call an outcome
flag.  Wall-clock instants are rationals (milliseconds, as `Date.now()`).
-/

namespace SpeakingTest

/-- The `TestPhase` union type of the source. -/
inductive TestPhase where
  | connecting
  | identity_check
  | part1_intro
  | part1_questions
  | part1_question_recording
  | part2_intro
  | part2_prep
  | part2_speaking
  | part3_intro
  | part3_questions
  | part3_question_recording
  | submitting
  | done
deriving DecidableEq, Repr

/-- The `PartRecording` interface of the source.  Audio blobs are abstract
chunk identifiers; `startTime` is a millisecond instant; `duration` is the
floored whole-second value computed on finalisation. -/
structure PartRecording where
  partNumber : Nat
  chunks : List String
  startTime : ℚ
  transcript : String
  speakingDuration : Option ℚ := none
  audioBase64 : Option String := none
  duration : Option ℤ := none
deriving DecidableEq, Repr

/-- Look up the recording of a part in the `partRecordings` record, which we
model as an association list keyed by part number. -/
def lookupRec (m : List (Nat × PartRecording)) (k : Nat) : Option PartRecording :=
  (m.find? (fun p => p.1 == k)).map (·.2)

/-- Update the recording of a part in place, leaving the record unchanged
when the part has no entry (as the source state updaters do). -/
def updateRec (m : List (Nat × PartRecording)) (k : Nat)
    (f : PartRecording → PartRecording) : List (Nat × PartRecording) :=
  m.map (fun p => if p.1 == k then (p.1, f p.2) else p)

/-- Controller state relevant to submission: phase, current part, the
recordings record, the shared chunk buffer `audioChunksRef`, the recording
flag, and counters/flags observing the toast and navigation side effects. -/
structure ControllerState where
  phase : TestPhase
  currentPart : Nat
  partRecordings : List (Nat × PartRecording)
  audioChunks : List String
  isRecording : Bool
  errorToasts : Nat
  successToasts : Nat
  navigatedTo : Option String
  disconnected : Bool
deriving DecidableEq, Repr

/-- The `stopRecording` helper: stop the recorder, clear the recording flag
and append the buffered chunks to the current part's recording. -/
def stopRecording (s : ControllerState) : ControllerState :=
  { s with
    isRecording := false,
    partRecordings := updateRec s.partRecordings s.currentPart
      (fun r => { r with chunks := r.chunks ++ s.audioChunks }) }

/-- The `uploadPartAudio` helper: when the part has a recording with at least
one chunk, encode the chunks to a base64 payload and store it together with
the floored elapsed duration in seconds.  The source does this inside an
asynchronous FileReader callback; the model applies it in program order. -/
def uploadPartAudio (encode : List String → String) (now : ℚ) (partNumber : Nat)
    (s : ControllerState) : ControllerState :=
  match lookupRec s.partRecordings partNumber with
  | none => s
  | some r =>
    if r.chunks.isEmpty then s
    else
      let upd : PartRecording → PartRecording := fun r2 =>
        { r2 with
          audioBase64 := some (encode r.chunks),
          duration := some ⌊(now - r.startTime) / 1000⌋ }
      { s with partRecordings := updateRec s.partRecordings partNumber upd }

/-- The Part 2 minimum-speaking threshold of the source
(`PART2_MIN_SPEAKING_SECONDS = 80`). -/
def PART2_MIN_SPEAKING_SECONDS : ℚ := 80

/-- The expression `partRecordings[2]?.speakingDuration || 0` of the source:
a missing part or a missing (or zero) measured duration yields 0. -/
def part2SpeakingDurationOf (rec : Option PartRecording) : ℚ :=
  match rec with
  | none => 0
  | some r => r.speakingDuration.getD 0

/-- The evaluation request body assembled by `handleCompleteTest`. -/
structure SubmissionRequest where
  partAudios : List (Nat × String × ℤ)
  transcripts : List (Nat × String)
  part2SpeakingDuration : ℚ
  fluencyFlag : Bool
deriving DecidableEq, Repr

/-- Assembly of the evaluation request: parts with a non-empty payload, the
transcript map, the measured Part 2 speaking duration and the fluency flag
`part2SpeakingDuration < PART2_MIN_SPEAKING_SECONDS`. -/
def assembleSubmission (s : ControllerState) : SubmissionRequest :=
  { partAudios :=
      (s.partRecordings.map
        (fun p => (p.2.partNumber, p.2.audioBase64.getD "", p.2.duration.getD 0))).filter
        (fun q => !(q.2.1 == ""))
  , transcripts := s.partRecordings.map (fun p => (p.1, p.2.transcript))
  , part2SpeakingDuration := part2SpeakingDurationOf (lookupRec s.partRecordings 2)
  , fluencyFlag :=
      decide (part2SpeakingDurationOf (lookupRec s.partRecordings 2) <
        PART2_MIN_SPEAKING_SECONDS) }

/-- Steps of `handleCompleteTest` preceding the evaluation call: stop the
capture, finalise the Part 3 payload, enter the `submitting` phase and
disconnect the voice channel.  Returns the pre-submission state and the
assembled request. -/
def prepareSubmission (encode : List String → String) (now : ℚ)
    (s : ControllerState) : ControllerState × SubmissionRequest :=
  let s1 := stopRecording s
  let s2 := uploadPartAudio encode now 3 s1
  let s3 := { s2 with phase := TestPhase.submitting, disconnected := true }
  (s3, assembleSubmission s3)

/-- Outcome handling of the evaluation call: on success a toast and a
navigation to the results page; on error a destructive retry toast and a
phase rollback to `part3_questions`.  Nothing else is touched. -/
def submitOutcome (submitOk : Bool) (testId : String)
    (s : ControllerState) : ControllerState :=
  if submitOk then
    { s with successToasts := s.successToasts + 1,
             navigatedTo := some ("/ai-practice/speaking/results/" ++ testId) }
  else
    { s with errorToasts := s.errorToasts + 1, phase := TestPhase.part3_questions }

/-- The whole `handleCompleteTest` flow, with the evaluation outcome supplied
by the `submitOk` oracle. -/
def handleCompleteTest (encode : List String → String) (now : ℚ) (submitOk : Bool)
    (testId : String) (s : ControllerState) : ControllerState :=
  submitOutcome submitOk testId (prepareSubmission encode now s).1

end SpeakingTest

namespace Timer

open SpeakingTest

/-- Timing constants of `PART_TIMINGS` used by the timer handlers. -/
def part2SpeakTime : Nat := 120

/-- State of the countdown machinery: the two pieces of React state the timer
effect depends on (`timeLeft`, `phase`), the `timerRef` cell, the multiset of
live `setInterval` handles (`installed`), a supply of fresh handle ids, a
counter of `handleTimeUp` invocations, and `totalTestTime`.  Interval handles
are modelled as numbers starting at 1, as in the browser. -/
structure TimerState where
  timeLeft : Nat
  phase : TestPhase
  timerRef : Option Nat
  installed : List Nat
  nextId : Nat
  fires : Nat
  totalTestTime : Nat
deriving DecidableEq, Repr

/-- Cleanup function of the timer effect:
`if (timerRef.current) clearInterval(timerRef.current)`.  Clearing a handle
that is no longer live is a no-op, as in the browser. -/
def effectCleanup (s : TimerState) : TimerState :=
  match s.timerRef with
  | some id => { s with installed := s.installed.erase id }
  | none => s

/-- Body of the timer effect: `if (timeLeft <= 0) return;` then install a
fresh interval and store its handle in `timerRef`. -/
def effectBody (s : TimerState) : TimerState :=
  if s.timeLeft = 0 then s
  else
    { s with installed := s.installed ++ [s.nextId],
             timerRef := some s.nextId,
             nextId := s.nextId + 1 }

/-- One run of the effect keyed on `[timeLeft, phase]`: React runs the
cleanup of the previous run, then the body. -/
def runEffect (s : TimerState) : TimerState :=
  effectBody (effectCleanup s)

/-- Effect of `handleTimeUp` on the `(phase, timeLeft)` pair, per phase.  The
recorder and voice-channel side effects (stopping capture, prompting the
examiner, recording the Part 2 speaking duration) act on state outside the
timer machinery and are omitted here; the `part2_speaking` branch defers its
phase change to a `setTimeout`, so the phase is unchanged at this instant.
In every branch the expiring update leaves `timeLeft` at 0 unless the
handler starts the Part 2 speaking countdown. -/
def handleTimeUp : TestPhase → TestPhase × Nat
  | .part1_question_recording => (.part1_questions, 0)
  | .part2_prep => (.part2_speaking, part2SpeakTime)
  | .part2_speaking => (.part2_speaking, 0)
  | .part3_question_recording => (.part3_questions, 0)
  | p => (p, 0)

/-- One tick of the live interval: decrement `timeLeft`, or at 1 invoke
`handleTimeUp` and settle at the pair it dictates; `totalTestTime` advances
either way.  The state change re-runs the effect (its dependencies changed),
which clears the expiring interval and installs a fresh one only for a
positive countdown. -/
def tickRun (s : TimerState) : TimerState :=
  if s.timeLeft ≤ 1 then
    let pt := handleTimeUp s.phase
    runEffect { s with fires := s.fires + 1, timeLeft := pt.2, phase := pt.1,
                       totalTestTime := s.totalTestTime + 1 }
  else
    runEffect { s with timeLeft := s.timeLeft - 1, totalTestTime := s.totalTestTime + 1 }

/-- A scheduler step: either the live interval ticks (a tick with no live
interval does nothing), or a handler transitions the phase and countdown
(`setPhase` plus `setTimeLeft`), after which the effect re-runs. -/
inductive TStep where
  | tick
  | trans (p : TestPhase) (tl : Nat)
deriving DecidableEq, Repr

/-- Apply one scheduler step. -/
def applyTStep (s : TimerState) : TStep → TimerState
  | .tick => if s.installed.isEmpty then s else tickRun s
  | .trans p tl => runEffect { s with phase := p, timeLeft := tl }

/-- Run a sequence of scheduler steps. -/
def runTSteps (s : TimerState) (steps : List TStep) : TimerState :=
  steps.foldl applyTStep s

/-- Initial state of the page: phase `connecting`, no countdown, no interval. -/
def initTimer : TimerState :=
  { timeLeft := 0, phase := TestPhase.connecting, timerRef := none,
    installed := [], nextId := 1, fires := 0, totalTestTime := 0 }

end Timer

/-!
Concrete inputs used to exercise the theorems below on closed instances.
-/

namespace AudioQueue

/-- A queue state as created by the hook: session 0, not speaking, no key,
no failed clips. -/
def demoState : QueueState := ⟨0, false, none, []⟩

/-- A two-clip list. -/
def demoClips : List PcmClip := [⟨"a", "payloadA"⟩, ⟨"b", "payloadB"⟩]

/-- A single-clip list. -/
def demoClipA : List PcmClip := [⟨"a", "payloadA"⟩]

/-- Outcome oracle: every attempt succeeds. -/
def okAll : Nat → Nat → Bool := fun _ _ => true

/-- Outcome oracle: every attempt fails. -/
def okNone : Nat → Nat → Bool := fun _ _ => false

/-- Outcome oracle: every attempt of clip 0 fails, all others succeed. -/
def okSkipFirst : Nat → Nat → Bool := fun i _ => i != 0

/-- External calls: a `stop()` during the first await, nothing afterwards. -/
def envStopAt0 : Nat → List EnvAct := fun t => if t = 0 then [EnvAct.stop] else []

/-- External calls: a superseding `playClips` during the first await. -/
def envSupersedeAt0 : Nat → List EnvAct :=
  fun t => if t = 0 then [EnvAct.supersede] else []

end AudioQueue

namespace SpeakingTest

/-- A finished Part 2 recording whose measured speaking duration is 75 s. -/
def demoRec2 : PartRecording :=
  { partNumber := 2, chunks := ["c2"], startTime := 0, transcript := "t2",
    speakingDuration := some 75, audioBase64 := some "b2", duration := some 95 }

/-- A finished Part 2 recording whose measured speaking duration is exactly
80 s, the fluency boundary. -/
def demoRec2At80 : PartRecording :=
  { partNumber := 2, chunks := ["c2"], startTime := 0, transcript := "t2",
    speakingDuration := some 80, audioBase64 := some "b2", duration := some 95 }

/-- A Part 3 recording still being captured. -/
def demoRec3 : PartRecording :=
  { partNumber := 3, chunks := ["c3"], startTime := 1000, transcript := "t3" }

/-- A controller state during Part 3 questions, as `handleCompleteTest` finds
it, with the boundary Part 2 duration. -/
def demoController : ControllerState :=
  { phase := TestPhase.part3_questions, currentPart := 3,
    partRecordings := [(2, demoRec2At80), (3, demoRec3)],
    audioChunks := ["c3b"], isRecording := true, errorToasts := 0,
    successToasts := 0, navigatedTo := none, disconnected := false }

end SpeakingTest

namespace Timer

open SpeakingTest

/-- Scheduler steps driving the page into a 1-second countdown of the Part 1
answer window. -/
def demoTSteps : List TStep := [TStep.trans TestPhase.part1_question_recording 1]

end Timer

/-!
Characterisation lemmas for undisturbed runs, trace-shape lemmas, and the
claim theorems.
-/

namespace AudioQueue

lemma runAttempts_noEnv_st (ok : Nat → Nat → Bool) (i : Nat) :
    ∀ rem a t s, (runAttempts ok noEnv i a rem t s).st = s := by
  intro rem
  induction rem with
  | zero => intro a t s; rfl
  | succ r ih =>
    intro a t s
    by_cases h : ok i a <;> simp [runAttempts, noEnv, h, ih]

lemma runAttempts_noEnv_tr (ok : Nat → Nat → Bool) (i : Nat) :
    ∀ rem a t s, (runAttempts ok noEnv i a rem t s).tr = attemptsTraceFrom ok i a rem := by
  intro rem
  induction rem with
  | zero => intro a t s; rfl
  | succ r ih =>
    intro a t s
    by_cases h : ok i a <;> simp [runAttempts, noEnv, h, ih, attemptsTraceFrom]

lemma runAttempts_noEnv_succ (ok : Nat → Nat → Bool) (i : Nat) :
    ∀ rem a t s, (runAttempts ok noEnv i a rem t s).succ = succFrom ok i a rem := by
  intro rem
  induction rem with
  | zero => intro a t s; rfl
  | succ r ih =>
    intro a t s
    by_cases h : ok i a <;> simp [runAttempts, noEnv, h, ih, succFrom]

lemma runClips_noEnv (ok : Nat → Nat → Bool) (rc sid : Nat) :
    ∀ clips i t s, s.playSession = sid →
      (runClips ok noEnv rc sid clips i t s).tr = clipsTraceFrom ok rc clips i ∧
      (runClips ok noEnv rc sid clips i t s).st.playSession = sid ∧
      (runClips ok noEnv rc sid clips i t s).st.failedClips =
        s.failedClips ++ failedKeysFrom ok rc clips i := by
  intro clips
  induction clips with
  | nil => intro i t s hs; exact ⟨rfl, hs, by simp [runClips, failedKeysFrom]⟩
  | cons c rest ih =>
    intro i t s hs
    by_cases hsucc : succFrom ok i 0 (rc + 1)
    · have h1 := ih (i + 1) ((runAttempts ok noEnv i 0 (rc + 1) t
        { s with currentClipKey := some c.key }).clock)
        { s with currentClipKey := some c.key } (by simp [hs])
      simp only [runClips, hs, clipsTraceFrom, failedKeysFrom,
        runAttempts_noEnv_st, runAttempts_noEnv_tr, runAttempts_noEnv_succ, hsucc,
        if_true, ne_eq, not_true_eq_false, if_false, ite_true, ite_false] at h1 ⊢
      simp [h1.1, h1.2.1, h1.2.2, hsucc]
    · have h1 := ih (i + 1) ((runAttempts ok noEnv i 0 (rc + 1) t
        { s with currentClipKey := some c.key }).clock)
        { s with currentClipKey := some c.key, failedClips := s.failedClips ++ [c.key] }
        (by simp [hs])
      simp only [runClips, hs, clipsTraceFrom, failedKeysFrom,
        runAttempts_noEnv_st, runAttempts_noEnv_tr, runAttempts_noEnv_succ, hsucc,
        ne_eq, not_true_eq_false] at h1 ⊢
      simp [h1.1, h1.2.1, h1.2.2, hsucc]

lemma playClips_noEnv (ok : Nat → Nat → Bool) (clips : List PcmClip) (rc : Nat)
    (s : QueueState) (h : clips ≠ []) :
    (playClips ok noEnv clips rc s).tr = clipsTraceFrom ok rc clips 0 ∧
    (playClips ok noEnv clips rc s).st.failedClips = failedKeysFrom ok rc clips 0 ∧
    (playClips ok noEnv clips rc s).st.isSpeaking = false := by
  have hne : clips.isEmpty = false := by simpa [List.isEmpty_iff] using h
  have h1 := runClips_noEnv ok rc (s.playSession + 1) clips 0 0
    { s with playSession := s.playSession + 1, isSpeaking := true, failedClips := [] } rfl
  refine ⟨?_, ?_, ?_⟩ <;>
    simp only [playClips, hne, Bool.false_eq_true, if_false, h1.2.1, if_true] <;>
    simp [h1.1, h1.2.2]

lemma attemptsTraceFrom_no_clipStart (ok : Nat → Nat → Bool) (i : Nat) :
    ∀ rem a, (attemptsTraceFrom ok i a rem).filter isClipStart = [] := by
  intro rem
  induction rem with
  | zero => intro a; rfl
  | succ r ih =>
    intro a
    by_cases h : ok i a <;> simp [attemptsTraceFrom, h, ih, isClipStart]

lemma attemptsTraceFrom_idx (ok : Nat → Nat → Bool) (i : Nat) :
    ∀ rem a e, e ∈ attemptsTraceFrom ok i a rem → evIdx e = i := by
  intro rem
  induction rem with
  | zero => intro a e he; simp [attemptsTraceFrom] at he
  | succ r ih =>
    intro a e he
    by_cases h : ok i a <;> simp only [attemptsTraceFrom, h, if_true, if_false,
      List.mem_cons, List.mem_append, List.not_mem_nil, or_false, ite_true, ite_false] at he
    · rcases he with h1 | h1 | h1 <;> simp [h1, evIdx]
    · rcases he with h1 | h1 | h1 | h1
      · simp [h1, evIdx]
      · simp [h1, evIdx]
      · simp [h1, evIdx]
      · exact ih (a + 1) e h1

lemma attemptsTraceFrom_last (ok : Nat → Nat → Bool) (i : Nat) :
    ∀ rem a, ∃ q b, attemptsTraceFrom ok i a (rem + 1) = q ++ [QEv.revoke i b] := by
  intro rem
  induction rem with
  | zero =>
    intro a
    by_cases h : ok i a
    · exact ⟨[QEv.decode i a, QEv.attemptEnd i a (ok i a)], a, by simp [attemptsTraceFrom, h]⟩
    · exact ⟨[QEv.decode i a, QEv.attemptEnd i a (ok i a)], a,
        by simp [attemptsTraceFrom, h]⟩
  | succ r ih =>
    intro a
    by_cases h : ok i a
    · exact ⟨[QEv.decode i a, QEv.attemptEnd i a (ok i a)], a, by simp [attemptsTraceFrom, h]⟩
    · obtain ⟨q, b, hq⟩ := ih (a + 1)
      refine ⟨QEv.decode i a :: QEv.attemptEnd i a (ok i a) :: QEv.revoke i a :: q, b, ?_⟩
      show QEv.decode i a :: QEv.attemptEnd i a (ok i a) :: QEv.revoke i a ::
        (if ok i a then [] else attemptsTraceFrom ok i (a + 1) (r + 1)) = _
      rw [if_neg h, hq]
      simp

lemma attemptsTraceFrom_head (ok : Nat → Nat → Bool) (i : Nat) (rem a : Nat) :
    ∃ w, attemptsTraceFrom ok i a (rem + 1) = QEv.decode i a :: w := by
  exact ⟨QEv.attemptEnd i a (ok i a) :: QEv.revoke i a ::
    (if ok i a then [] else attemptsTraceFrom ok i (a + 1) rem), rfl⟩

lemma evIdx_of_isDecodeOf {j : Nat} {e : QEv} (h : isDecodeOf j e = true) : evIdx e = j := by
  cases e <;> simp_all [isDecodeOf, evIdx]

lemma attemptsTraceFrom_countP_decode (ok : Nat → Nat → Bool) (i j : Nat) :
    ∀ rem a, (attemptsTraceFrom ok i a rem).countP (isDecodeOf j) ≤ rem := by
  intro rem
  induction rem with
  | zero => intro a; simp [attemptsTraceFrom]
  | succ r ih =>
    intro a
    have hd : (if isDecodeOf j (QEv.decode i a) = true then 1 else 0) ≤ 1 := by
      split <;> omega
    have hr := ih (a + 1)
    by_cases h : ok i a <;>
      simp only [attemptsTraceFrom, h, ite_true, ite_false, List.countP_cons,
        List.countP_nil, isDecodeOf, Bool.false_eq_true, if_false, Nat.add_zero,
        Nat.zero_add] <;>
      simp only [isDecodeOf] at hd <;>
      omega

lemma clipsTraceFrom_idx_lb (ok : Nat → Nat → Bool) (rc : Nat) :
    ∀ clips i e, e ∈ clipsTraceFrom ok rc clips i → i ≤ evIdx e := by
  intro clips
  induction clips with
  | nil => intro i e he; simp [clipsTraceFrom] at he
  | cons c rest ih =>
    intro i e he
    simp only [clipsTraceFrom, List.mem_cons, List.mem_append] at he
    rcases he with h1 | h1 | h1
    · simp [h1, evIdx]
    · exact le_of_eq (attemptsTraceFrom_idx ok i _ _ e h1).symm
    · exact Nat.le_of_succ_le (ih (i + 1) e h1)

lemma clipsTraceFrom_countP_decode (ok : Nat → Nat → Bool) (rc j : Nat) :
    ∀ clips i, (clipsTraceFrom ok rc clips i).countP (isDecodeOf j) ≤ rc + 1 := by
  intro clips
  induction clips with
  | nil => intro i; simp [clipsTraceFrom]
  | cons c rest ih =>
    intro i
    have hsplit : (clipsTraceFrom ok rc (c :: rest) i).countP (isDecodeOf j) =
        ((attemptsTraceFrom ok i 0 (rc + 1)).countP (isDecodeOf j) +
          (clipsTraceFrom ok rc rest (i + 1)).countP (isDecodeOf j)) := by
      simp [clipsTraceFrom, List.countP_cons, List.countP_append, isDecodeOf]
    by_cases hji : j = i
    · have hrest : (clipsTraceFrom ok rc rest (i + 1)).countP (isDecodeOf j) = 0 := by
        refine List.countP_eq_zero.mpr ?_
        intro e he hdec
        have h1 := clipsTraceFrom_idx_lb ok rc rest (i + 1) e he
        rw [evIdx_of_isDecodeOf hdec, hji] at h1
        omega
      have hatt := attemptsTraceFrom_countP_decode ok i j (rc + 1) 0
      omega
    · have hatt : (attemptsTraceFrom ok i 0 (rc + 1)).countP (isDecodeOf j) = 0 := by
        refine List.countP_eq_zero.mpr ?_
        intro e he hdec
        have h1 := attemptsTraceFrom_idx ok i _ _ e he
        rw [evIdx_of_isDecodeOf hdec] at h1
        exact hji h1
      have := ih (i + 1)
      omega

lemma clipsTraceFrom_filter_clipStart (ok : Nat → Nat → Bool) (rc : Nat) :
    ∀ clips i, (clipsTraceFrom ok rc clips i).filter isClipStart =
      (List.enumFrom i clips).map (fun p => QEv.clipStart p.1 p.2.key) := by
  intro clips
  induction clips with
  | nil => intro i; rfl
  | cons c rest ih =>
    intro i
    simp [clipsTraceFrom, List.filter_cons, isClipStart, List.filter_append,
      attemptsTraceFrom_no_clipStart, ih (i + 1)]

lemma pairwise_le_of_const (i : Nat) :
    ∀ l : List QEv, (∀ e ∈ l, evIdx e = i) →
      l.Pairwise (fun e f => evIdx e ≤ evIdx f) := by
  intro l
  induction l with
  | nil => intro _; exact List.Pairwise.nil
  | cons x xs ih =>
    intro h
    refine List.Pairwise.cons ?_ (ih fun e he => h e (List.mem_cons_of_mem _ he))
    intro e he
    rw [h x (List.mem_cons_self _ _), h e (List.mem_cons_of_mem _ he)]

lemma clipsTraceFrom_pairwise (ok : Nat → Nat → Bool) (rc : Nat) :
    ∀ clips i, (clipsTraceFrom ok rc clips i).Pairwise (fun e f => evIdx e ≤ evIdx f) := by
  intro clips
  induction clips with
  | nil => intro i; exact List.Pairwise.nil
  | cons c rest ih =>
    intro i
    simp only [clipsTraceFrom]
    refine List.Pairwise.cons ?_ (List.pairwise_append.mpr ⟨?_, ih (i + 1), ?_⟩)
    · intro e he
      simp only [List.mem_append] at he
      rcases he with h1 | h1
      · rw [evIdx, attemptsTraceFrom_idx ok i _ _ e h1]
      · exact le_trans (by rw [evIdx]; omega) (clipsTraceFrom_idx_lb ok rc rest (i + 1) e h1)
    · exact pairwise_le_of_const i _ (fun e he => attemptsTraceFrom_idx ok i _ _ e he)
    · intro e he f hf
      rw [attemptsTraceFrom_idx ok i _ _ e he]
      exact le_trans (Nat.le_succ i) (clipsTraceFrom_idx_lb ok rc rest (i + 1) f hf)

lemma clipsTraceFrom_boundary (ok : Nat → Nat → Bool) (rc : Nat) :
    ∀ clips i j, j + 1 < clips.length →
      ∃ u b k v, clipsTraceFrom ok rc clips i =
        u ++ QEv.revoke (i + j) b :: QEv.clipStart (i + j + 1) k ::
          QEv.decode (i + j + 1) 0 :: v := by
  intro clips
  induction clips with
  | nil => intro i j hj; simp at hj
  | cons c rest ih =>
    intro i j hj
    cases j with
    | zero =>
      cases rest with
      | nil => simp at hj
      | cons c2 rest2 =>
        obtain ⟨q, b, hq⟩ := attemptsTraceFrom_last ok i rc 0
        obtain ⟨w, hw⟩ := attemptsTraceFrom_head ok (i + 1) rc 0
        refine ⟨QEv.clipStart i c.key :: q, b, c2.key,
          w ++ clipsTraceFrom ok rc rest2 (i + 2), ?_⟩
        show QEv.clipStart i c.key :: (attemptsTraceFrom ok i 0 (rc + 1) ++
          (QEv.clipStart (i + 1) c2.key :: (attemptsTraceFrom ok (i + 1) 0 (rc + 1) ++
            clipsTraceFrom ok rc rest2 (i + 2)))) = _
        rw [hq, hw]
        simp
    | succ j2 =>
      have hj2 : j2 + 1 < rest.length := by
        simp only [List.length_cons] at hj
        omega
      obtain ⟨u, b, k, v, hu⟩ := ih (i + 1) j2 hj2
      refine ⟨QEv.clipStart i c.key :: (attemptsTraceFrom ok i 0 (rc + 1) ++ u),
        b, k, v, ?_⟩
      have harith : i + 1 + j2 = i + (j2 + 1) := by omega
      rw [harith] at hu
      show QEv.clipStart i c.key :: (attemptsTraceFrom ok i 0 (rc + 1) ++
        clipsTraceFrom ok rc rest (i + 1)) = _
      rw [hu]
      simp

/-- C1: for every non-empty clip list, an undisturbed `playClips` run (no
`stop` call and no later `playClips` call while it is in flight) visits every
clip index in strict list order exactly once, skipping none, for every
failure pattern: the clip-start events of the trace are exactly one per clip
in list order, the clip indices of the trace are monotone (so no event of a
later clip precedes one of an earlier clip), and the first decode of each
clip after the first is immediately preceded by the revocation that releases
the previous clip's final attempt. -/
theorem C1_playClips_visits_in_order (ok : Nat → Nat → Bool) (clips : List PcmClip)
    (retryCount : Nat) (s : QueueState) (h : clips ≠ []) :
    ((playClips ok noEnv clips retryCount s).tr.filter isClipStart =
      clips.enum.map (fun p => QEv.clipStart p.1 p.2.key)) ∧
    (playClips ok noEnv clips retryCount s).tr.Pairwise (fun e f => evIdx e ≤ evIdx f) ∧
    (∀ j, j + 1 < clips.length →
      ∃ u b k v, (playClips ok noEnv clips retryCount s).tr =
        u ++ QEv.revoke j b :: QEv.clipStart (j + 1) k :: QEv.decode (j + 1) 0 :: v) := by
  obtain ⟨htr, -, -⟩ := playClips_noEnv ok clips retryCount s h
  rw [htr]
  refine ⟨?_, clipsTraceFrom_pairwise ok retryCount clips 0, ?_⟩
  · rw [clipsTraceFrom_filter_clipStart]
    rfl
  · intro j hj
    have hb := clipsTraceFrom_boundary ok retryCount clips 0 j hj
    simpa using hb

/-- Witness for C1 at a concrete two-clip run in which the first clip always
fails and the second always succeeds. -/
theorem C1_witness :
    demoClips ≠ [] ∧
    (((playClips okSkipFirst noEnv demoClips 1 demoState).tr.filter isClipStart =
      demoClips.enum.map (fun p => QEv.clipStart p.1 p.2.key)) ∧
    (playClips okSkipFirst noEnv demoClips 1 demoState).tr.Pairwise
      (fun e f => evIdx e ≤ evIdx f) ∧
    (∀ j, j + 1 < demoClips.length →
      ∃ u b k v, (playClips okSkipFirst noEnv demoClips 1 demoState).tr =
        u ++ QEv.revoke j b :: QEv.clipStart (j + 1) k :: QEv.decode (j + 1) 0 :: v)) :=
  ⟨by decide, C1_playClips_visits_in_order okSkipFirst demoClips 1 demoState (by decide)⟩

lemma succFrom_any (ok : Nat → Nat → Bool) (i : Nat) :
    ∀ rem a, succFrom ok i a rem = (List.range' a rem).any (fun b => ok i b) := by
  intro rem
  induction rem with
  | zero => intro a; rfl
  | succ r ih =>
    intro a
    rw [List.range'_succ]
    simp [succFrom, ih (a + 1)]

lemma failedKeysFrom_sub (ok : Nat → Nat → Bool) (rc : Nat) :
    ∀ clips i x, x ∈ failedKeysFrom ok rc clips i → x ∈ clips.map PcmClip.key := by
  intro clips
  induction clips with
  | nil => intro i x hx; simp [failedKeysFrom] at hx
  | cons c rest ih =>
    intro i x hx
    simp only [failedKeysFrom, List.mem_append] at hx
    rcases hx with h1 | h1
    · by_cases hs : succFrom ok i 0 (rc + 1) <;> simp [hs] at h1
      simp [h1]
    · exact List.mem_cons_of_mem _ (ih (i + 1) x h1)

lemma failedKeysFrom_count (ok : Nat → Nat → Bool) (rc : Nat) :
    ∀ clips i j (hj : j < clips.length), (clips.map PcmClip.key).Nodup →
      (failedKeysFrom ok rc clips i).count ((clips.get ⟨j, hj⟩).key) =
        if succFrom ok (i + j) 0 (rc + 1) then 0 else 1 := by
  intro clips
  induction clips with
  | nil => intro i j hj; simp at hj
  | cons c rest ih =>
    intro i j hj hnd
    simp only [List.map_cons, List.nodup_cons] at hnd
    cases j with
    | zero =>
      have hnot : (failedKeysFrom ok rc rest (i + 1)).count c.key = 0 := by
        refine List.count_eq_zero.mpr ?_
        intro hmem
        exact hnd.1 (failedKeysFrom_sub ok rc rest (i + 1) c.key hmem)
      by_cases hs : succFrom ok i 0 (rc + 1) <;>
        simp [failedKeysFrom, hs, List.count_append, hnot]
    | succ j2 =>
      have hj2 : j2 < rest.length := by
        simp only [List.length_cons] at hj
        omega
      have hget : ((c :: rest).get ⟨j2 + 1, hj⟩) = rest.get ⟨j2, hj2⟩ := rfl
      have hkey : (rest.get ⟨j2, hj2⟩).key ∈ rest.map PcmClip.key :=
        List.mem_map_of_mem PcmClip.key (rest.get_mem _ _)
      have hne : (rest.get ⟨j2, hj2⟩).key ≠ c.key := by
        intro heq
        exact hnd.1 (heq ▸ hkey)
      have harith : i + 1 + j2 = i + (j2 + 1) := by omega
      have h2 := ih (i + 1) j2 hj2 hnd.2
      rw [harith] at h2
      rw [hget]
      by_cases hs : succFrom ok i 0 (rc + 1)
      · simpa [failedKeysFrom, hs] using h2
      · have hsing : List.count ((rest.get ⟨j2, hj2⟩).key) [c.key] = 0 :=
          List.count_eq_zero.mpr (by simpa using hne)
        have hsplit : failedKeysFrom ok rc (c :: rest) i =
            [c.key] ++ failedKeysFrom ok rc rest (i + 1) := by
          simp [failedKeysFrom, hs]
        rw [hsplit, List.count_append, hsing, Nat.zero_add, h2]

/-- C2: in an undisturbed `playClips` run over a non-empty list of clips with
pairwise distinct keys, each clip is attempted at most `retryCount + 1`
times; `failedClips`, having been reset at the start of the run, ends as
exactly the keys of the clips whose every attempt failed, in order; and so a
clip whose every attempt fails is counted exactly once there while a clip
that succeeds on some attempt never appears. -/
theorem C2_retry_bound_and_failed_clips (ok : Nat → Nat → Bool) (clips : List PcmClip)
    (retryCount : Nat) (s : QueueState) (h : clips ≠ [])
    (hnd : (clips.map PcmClip.key).Nodup) :
    (∀ i, (playClips ok noEnv clips retryCount s).tr.countP (isDecodeOf i) ≤
      retryCount + 1) ∧
    ((playClips ok noEnv clips retryCount s).st.failedClips =
      failedKeysFrom ok retryCount clips 0) ∧
    (∀ j, (hj : j < clips.length) →
      (playClips ok noEnv clips retryCount s).st.failedClips.count
          ((clips.get ⟨j, hj⟩).key) =
        if (List.range (retryCount + 1)).any (fun a => ok j a) then 0 else 1) := by
  obtain ⟨htr, hfc, -⟩ := playClips_noEnv ok clips retryCount s h
  refine ⟨?_, hfc, ?_⟩
  · intro i
    rw [htr]
    exact clipsTraceFrom_countP_decode ok retryCount i clips 0
  · intro j hj
    rw [hfc, failedKeysFrom_count ok retryCount clips 0 j hj hnd]
    have : succFrom ok (0 + j) 0 (retryCount + 1) =
        (List.range (retryCount + 1)).any (fun a => ok j a) := by
      rw [succFrom_any, List.range_eq_range', Nat.zero_add]
    rw [this]

/-- Witness for C2 at a concrete two-clip run in which the first clip always
fails and the second always succeeds. -/
theorem C2_witness :
    (demoClips ≠ [] ∧ (demoClips.map PcmClip.key).Nodup) ∧
    ((∀ i, (playClips okSkipFirst noEnv demoClips 1 demoState).tr.countP
        (isDecodeOf i) ≤ 1 + 1) ∧
    ((playClips okSkipFirst noEnv demoClips 1 demoState).st.failedClips =
      failedKeysFrom okSkipFirst 1 demoClips 0) ∧
    (∀ j, (hj : j < demoClips.length) →
      (playClips okSkipFirst noEnv demoClips 1 demoState).st.failedClips.count
          ((demoClips.get ⟨j, hj⟩).key) =
        if (List.range (1 + 1)).any (fun a => okSkipFirst j a) then 0 else 1)) :=
  ⟨⟨by decide, by decide⟩,
    C2_retry_bound_and_failed_clips okSkipFirst demoClips 1 demoState
      (by decide) (by decide)⟩

lemma append_eq_append_cons_split {α : Type} (x : α) :
    ∀ (l1 l2 u v : List α), l1 ++ l2 = u ++ x :: v →
      (∃ u1 v1, l1 = u1 ++ x :: v1 ∧ v = v1 ++ l2) ∨
      (∃ u2, l2 = u2 ++ x :: v ∧ u = l1 ++ u2) := by
  intro l1
  induction l1 with
  | nil =>
    intro l2 u v h
    right
    exact ⟨u, by simpa using h, by simp⟩
  | cons y ys ih =>
    intro l2 u v h
    cases u with
    | nil =>
      left
      simp only [List.nil_append, List.cons_append] at h
      injection h with h1 h2
      exact ⟨[], ys, by rw [h1]; rfl, h2.symm⟩
    | cons z zs =>
      simp only [List.cons_append] at h
      injection h with h1 h2
      rcases ih l2 zs v h2 with ⟨u1, v1, ha, hv⟩ | ⟨u2, hb, hu⟩
      · exact Or.inl ⟨y :: u1, v1, by rw [List.cons_append, ha], hv⟩
      · exact Or.inr ⟨u2, hb, by rw [h1, hu, List.cons_append]⟩

lemma countP_map_ext (l : List EnvAct) : (l.map QEv.ext).countP isExt = l.length := by
  induction l with
  | nil => rfl
  | cons a as ih => simp [List.countP_cons, isExt, ih]

lemma foldl_applyEnvAct_session : ∀ (acts : List EnvAct) (s : QueueState),
    (acts.foldl applyEnvAct s).playSession = s.playSession + acts.length := by
  intro acts
  induction acts with
  | nil => intro s; simp
  | cons a as ih =>
    intro s
    rw [List.foldl_cons, ih]
    cases a <;> simp [applyEnvAct, stop] <;> omega

lemma runAttempts_session (ok : Nat → Nat → Bool) (env : Nat → List EnvAct) (i : Nat) :
    ∀ rem a t s, (runAttempts ok env i a rem t s).st.playSession =
      s.playSession + (runAttempts ok env i a rem t s).tr.countP isExt := by
  intro rem
  induction rem with
  | zero => intro a t s; simp [runAttempts]
  | succ r ih =>
    intro a t s
    have hfold := foldl_applyEnvAct_session (env t) s
    have hr := ih (a + 1) (t + 1) ((env t).foldl applyEnvAct s)
    by_cases h : ok i a <;>
      (simp only [runAttempts, h, ite_true, ite_false, List.countP_cons,
        List.countP_append, countP_map_ext, isExt, Bool.false_eq_true, if_false,
        List.countP_nil]
       simp_all
       try omega)

lemma runAttempts_no_clipStart (ok : Nat → Nat → Bool) (env : Nat → List EnvAct)
    (i : Nat) : ∀ rem a t s j k,
      QEv.clipStart j k ∉ (runAttempts ok env i a rem t s).tr := by
  intro rem
  induction rem with
  | zero => intro a t s j k; simp [runAttempts]
  | succ r ih =>
    intro a t s j k
    by_cases h : ok i a <;>
      simp only [runAttempts, h, ite_true, ite_false, List.mem_cons,
        List.mem_append, List.mem_map, List.mem_singleton, not_or] <;>
      simp_all

lemma runClips_not_active (ok : Nat → Nat → Bool) (env : Nat → List EnvAct)
    (rc sid : Nat) (clips : List PcmClip) (i t : Nat) (s : QueueState)
    (h : s.playSession ≠ sid) :
    runClips ok env rc sid clips i t s = ⟨s, [], true, t⟩ := by
  cases clips <;> simp [runClips, h]

lemma runClips_session (ok : Nat → Nat → Bool) (env : Nat → List EnvAct)
    (rc sid : Nat) : ∀ clips i t s,
      (runClips ok env rc sid clips i t s).st.playSession =
        s.playSession + (runClips ok env rc sid clips i t s).tr.countP isExt := by
  intro clips
  induction clips with
  | nil => intro i t s; simp [runClips]
  | cons c rest ih =>
    intro i t s
    by_cases hs : s.playSession = sid
    · have hcond : ¬(s.playSession ≠ sid) := not_not_intro hs
      simp only [runClips, if_neg hcond]
      set R := runAttempts ok env i 0 (rc + 1) t
        { s with currentClipKey := some c.key } with hRdef
      set S2 := (if R.succ = true then R.st
        else { R.st with failedClips := R.st.failedClips ++ [c.key] }) with hS2def
      have hR : R.st.playSession = s.playSession + R.tr.countP isExt := by
        rw [hRdef]
        simpa using runAttempts_session ok env i (rc + 1) 0 t
          { s with currentClipKey := some c.key }
      have hS2 : S2.playSession = R.st.playSession := by
        rw [hS2def]; split <;> rfl
      have h2 := ih (i + 1) R.clock S2
      rw [List.countP_cons]
      simp only [isExt, Bool.false_eq_true, if_false, List.countP_append, Nat.add_zero]
      omega
    · rw [runClips_not_active ok env rc sid _ i t s hs]
      simp

lemma ext_mem_countP_pos {x : EnvAct} {l : List QEv} (h : QEv.ext x ∈ l) :
    0 < l.countP isExt :=
  List.countP_pos_iff.mpr ⟨QEv.ext x, h, rfl⟩

lemma runClips_no_clipStart_after_ext (ok : Nat → Nat → Bool) (env : Nat → List EnvAct)
    (rc sid : Nat) : ∀ clips i t s u x v,
      (runClips ok env rc sid clips i t s).tr = u ++ QEv.ext x :: v →
      ∀ j k, QEv.clipStart j k ∉ v := by
  intro clips
  induction clips with
  | nil =>
    intro i t s u x v h j k
    simp only [runClips] at h
    simp at h
  | cons c rest ih =>
    intro i t s u x v h j k
    by_cases hs : s.playSession = sid
    · have hcond : ¬(s.playSession ≠ sid) := not_not_intro hs
      simp only [runClips, if_neg hcond] at h
      set R := runAttempts ok env i 0 (rc + 1) t
        { s with currentClipKey := some c.key } with hRdef
      set S2 := (if R.succ = true then R.st
        else { R.st with failedClips := R.st.failedClips ++ [c.key] }) with hS2def
      cases u with
      | nil => simp at h
      | cons y u2 =>
        rw [List.cons_append] at h
        injection h with h1 h2
        rcases append_eq_append_cons_split (QEv.ext x) R.tr
          (runClips ok env rc sid rest (i + 1) R.clock S2).tr u2 v h2 with
          ⟨u1, v1, ha, hv⟩ | ⟨u3, hb, hu⟩
        · subst hv
          intro hmem
          rcases List.mem_append.mp hmem with hm | hm
          · have hnc : QEv.clipStart j k ∉ R.tr := by
              rw [hRdef]
              exact runAttempts_no_clipStart ok env i (rc + 1) 0 t _ j k
            exact hnc (by
              rw [ha]
              exact List.mem_append_right _ (List.mem_cons_of_mem _ hm))
          · have hext : QEv.ext x ∈ R.tr := by
              rw [ha]
              exact List.mem_append_right _ (List.mem_cons_self _ _)
            have hpos : 0 < R.tr.countP isExt := ext_mem_countP_pos hext
            have hsess : R.st.playSession = s.playSession + R.tr.countP isExt := by
              rw [hRdef]
              simpa using runAttempts_session ok env i (rc + 1) 0 t
                { s with currentClipKey := some c.key }
            have hS2sess : S2.playSession = R.st.playSession := by
              rw [hS2def]; split <;> rfl
            have hne2 : S2.playSession ≠ sid := by
              rw [hS2sess, hsess, hs]; omega
            rw [runClips_not_active ok env rc sid rest (i + 1) R.clock S2 hne2] at hm
            simp at hm
        · exact ih (i + 1) R.clock S2 u3 x v hb j k
    · rw [runClips_not_active ok env rc sid _ i t s hs] at h
      simp at h

lemma playClips_tr (ok : Nat → Nat → Bool) (env : Nat → List EnvAct)
    (clips : List PcmClip) (rc : Nat) (s : QueueState) (h : clips ≠ []) :
    (playClips ok env clips rc s).tr =
      (runClips ok env rc (s.playSession + 1) clips 0 0
        { s with playSession := s.playSession + 1,
                 isSpeaking := true, failedClips := [] }).tr := by
  have hne : clips.isEmpty = false := by simpa [List.isEmpty_iff] using h
  simp only [playClips, hne, Bool.false_eq_true, if_false]
  split <;> rfl

lemma playClips_session_lower (ok : Nat → Nat → Bool) (env : Nat → List EnvAct)
    (clips : List PcmClip) (rc : Nat) (s : QueueState) (h : clips ≠ []) :
    (playClips ok env clips rc s).st.playSession =
      s.playSession + 1 + (playClips ok env clips rc s).tr.countP isExt := by
  have hne : clips.isEmpty = false := by simpa [List.isEmpty_iff] using h
  have hrun := runClips_session ok env rc (s.playSession + 1) clips 0 0
    { s with playSession := s.playSession + 1, isSpeaking := true, failedClips := [] }
  simp only [playClips, hne, Bool.false_eq_true, if_false]
  split <;> simpa using hrun

lemma playClips_nonempty_of_split (ok : Nat → Nat → Bool) (env : Nat → List EnvAct)
    (clips : List PcmClip) (rc : Nat) (s : QueueState) (u v : List QEv) (x : EnvAct)
    (h : (playClips ok env clips rc s).tr = u ++ QEv.ext x :: v) : clips ≠ [] := by
  intro hnil
  subst hnil
  simp [playClips] at h

lemma filter_resEvts_map_ext (i a : Nat) (l : List EnvAct) :
    (l.map QEv.ext).filter (resEvts i a) = [] := by
  induction l with
  | nil => rfl
  | cons e es ih => simp [resEvts, ih]

lemma filter_resEvts_runAttempts_nil (ok : Nat → Nat → Bool) (env : Nat → List EnvAct)
    (i0 i a : Nat) : ∀ rem a0 t s, (a < a0 ∨ i ≠ i0) →
      (runAttempts ok env i0 a0 rem t s).tr.filter (resEvts i a) = [] := by
  intro rem
  induction rem with
  | zero => intro a0 t s hc; simp [runAttempts]
  | succ r ih =>
    intro a0 t s hc
    have hfalse : (i0 == i && a0 == a) = false := by
      simp only [Bool.and_eq_false_iff, beq_eq_false_iff_ne, ne_eq]
      rcases hc with h1 | h1
      · right; omega
      · left; omega
    have hrec := fun (t2 : Nat) (s2 : QueueState) => ih (a0 + 1) t2 s2
      (by rcases hc with h1 | h1
          · exact Or.inl (by omega)
          · exact Or.inr h1)
    by_cases h : ok i0 a0 <;>
      simp [runAttempts, h, List.filter_cons, List.filter_append, resEvts, hfalse,
        filter_resEvts_map_ext, hrec]

lemma filter_resEvts_runAttempts_pair (ok : Nat → Nat → Bool) (env : Nat → List EnvAct)
    (i0 : Nat) : ∀ rem a0 t s i a,
      (runAttempts ok env i0 a0 rem t s).tr.filter (resEvts i a) = [] ∨
      (runAttempts ok env i0 a0 rem t s).tr.filter (resEvts i a) =
        [QEv.decode i a, QEv.revoke i a] := by
  intro rem
  induction rem with
  | zero => intro a0 t s i a; left; simp [runAttempts]
  | succ r ih =>
    intro a0 t s i a
    by_cases hia : i = i0 ∧ a = a0
    · obtain ⟨hi, ha⟩ := hia
      subst hi
      subst ha
      have htrue : (i == i && a == a) = true := by simp
      by_cases h : ok i a
      · right
        simp [runAttempts, h, List.filter_cons, List.filter_append, resEvts,
          filter_resEvts_map_ext, htrue]
      · right
        have hnil := fun (t2 : Nat) (s2 : QueueState) =>
          filter_resEvts_runAttempts_nil ok env i i a r (a + 1) t2 s2
            (Or.inl (Nat.lt_succ_self a))
        simp [runAttempts, h, List.filter_cons, List.filter_append, resEvts,
          filter_resEvts_map_ext, htrue, hnil]
    · have hfalse : (i0 == i && a0 == a) = false := by
        simp only [Bool.and_eq_false_iff, beq_eq_false_iff_ne, ne_eq]
        by_cases hi : i0 = i
        · right
          intro haa
          exact hia ⟨hi.symm, haa.symm⟩
        · left; exact hi
      by_cases h : ok i0 a0
      · left
        simp [runAttempts, h, List.filter_cons, List.filter_append, resEvts,
          filter_resEvts_map_ext, hfalse]
      · rcases ih (a0 + 1) (t + 1) ((env t).foldl applyEnvAct s) i a with hh | hh
        · left
          simp [runAttempts, h, List.filter_cons, List.filter_append, resEvts,
            filter_resEvts_map_ext, hfalse, hh]
        · right
          simp [runAttempts, h, List.filter_cons, List.filter_append, resEvts,
            filter_resEvts_map_ext, hfalse, hh]

lemma filter_resEvts_runClips_nil (ok : Nat → Nat → Bool) (env : Nat → List EnvAct)
    (rc sid i a : Nat) : ∀ clips i0 t s, i < i0 →
      (runClips ok env rc sid clips i0 t s).tr.filter (resEvts i a) = [] := by
  intro clips
  induction clips with
  | nil => intro i0 t s hlt; simp [runClips]
  | cons c rest ih =>
    intro i0 t s hlt
    by_cases hs : s.playSession = sid
    · have hcond : ¬(s.playSession ≠ sid) := not_not_intro hs
      have hatt := fun (t2 : Nat) (s2 : QueueState) =>
        filter_resEvts_runAttempts_nil ok env i0 i a (rc + 1) 0 t2 s2
          (Or.inr (by omega))
      have hrest := fun (t2 : Nat) (s2 : QueueState) => ih (i0 + 1) t2 s2 (by omega)
      simp [runClips, if_neg hcond, List.filter_cons, List.filter_append, resEvts,
        hatt, hrest]
    · rw [runClips_not_active ok env rc sid _ i0 t s hs]
      simp

lemma filter_resEvts_runClips_pair (ok : Nat → Nat → Bool) (env : Nat → List EnvAct)
    (rc sid : Nat) : ∀ clips i0 t s i a,
      (runClips ok env rc sid clips i0 t s).tr.filter (resEvts i a) = [] ∨
      (runClips ok env rc sid clips i0 t s).tr.filter (resEvts i a) =
        [QEv.decode i a, QEv.revoke i a] := by
  intro clips
  induction clips with
  | nil => intro i0 t s i a; left; simp [runClips]
  | cons c rest ih =>
    intro i0 t s i a
    by_cases hs : s.playSession = sid
    · have hcond : ¬(s.playSession ≠ sid) := not_not_intro hs
      simp only [runClips, if_neg hcond]
      set R := runAttempts ok env i0 0 (rc + 1) t
        { s with currentClipKey := some c.key } with hRdef
      set S2 := (if R.succ = true then R.st
        else { R.st with failedClips := R.st.failedClips ++ [c.key] }) with hS2def
      have hsplit : (QEv.clipStart i0 c.key ::
          (R.tr ++ (runClips ok env rc sid rest (i0 + 1) R.clock S2).tr)).filter
            (resEvts i a) =
          R.tr.filter (resEvts i a) ++
            (runClips ok env rc sid rest (i0 + 1) R.clock S2).tr.filter (resEvts i a) := by
        simp [List.filter_cons, List.filter_append, resEvts]
      rw [hsplit]
      by_cases hi : i = i0
      · subst hi
        have hrest : (runClips ok env rc sid rest (i + 1) R.clock S2).tr.filter
            (resEvts i a) = [] :=
          filter_resEvts_runClips_nil ok env rc sid i a rest (i + 1) R.clock S2
            (Nat.lt_succ_self i)
        rw [hrest, List.append_nil]
        rw [hRdef]
        exact filter_resEvts_runAttempts_pair ok env i (rc + 1) 0 t
          { s with currentClipKey := some c.key } i a
      · have hatt : R.tr.filter (resEvts i a) = [] := by
          rw [hRdef]
          exact filter_resEvts_runAttempts_nil ok env i0 i a (rc + 1) 0 t
            { s with currentClipKey := some c.key } (Or.inr hi)
        rw [hatt, List.nil_append]
        exact ih (i0 + 1) R.clock S2 i a
    · rw [runClips_not_active ok env rc sid _ i0 t s hs]
      simp

/-- C3: a second `playClips` call issued while a run is in flight supersedes
it: after the recorded supersession event, the first run starts no further
clip (every clip of the first run not yet started never plays); the first
run's session id no longer matches the counter when the run ends; and in any
state at most one session id is the active one, so at most one playback run
is ever active at a time. -/
theorem C3_supersede_halts_run (ok : Nat → Nat → Bool) (env : Nat → List EnvAct)
    (clips : List PcmClip) (retryCount : Nat) (s : QueueState) (u v : List QEv)
    (h : (playClips ok env clips retryCount s).tr =
      u ++ QEv.ext EnvAct.supersede :: v) :
    (∀ j k, QEv.clipStart j k ∉ v) ∧
    ¬ activeSession (playClips ok env clips retryCount s).st (s.playSession + 1) ∧
    (∀ (q : QueueState) (sid1 sid2 : Nat),
      activeSession q sid1 → activeSession q sid2 → sid1 = sid2) := by
  have hne := playClips_nonempty_of_split ok env clips retryCount s u v
    EnvAct.supersede h
  refine ⟨?_, ?_, ?_⟩
  · rw [playClips_tr ok env clips retryCount s hne] at h
    exact runClips_no_clipStart_after_ext ok env retryCount (s.playSession + 1)
      clips 0 0 _ u EnvAct.supersede v h
  · have hx : QEv.ext EnvAct.supersede ∈ (playClips ok env clips retryCount s).tr := by
      rw [h]
      exact List.mem_append_right _ (List.mem_cons_self _ _)
    have hpos := ext_mem_countP_pos hx
    have hsess := playClips_session_lower ok env clips retryCount s hne
    intro hact
    have hact2 : (playClips ok env clips retryCount s).st.playSession =
      s.playSession + 1 := hact
    omega
  · intro q sid1 sid2 h1 h2
    exact (h1 : q.playSession = sid1).symm.trans h2

/-- Witness for C3: a superseding call arrives during playback of the first
of two clips; the second clip never starts. -/
theorem C3_witness :
    ((playClips okAll envSupersedeAt0 demoClips 1 demoState).tr =
      [QEv.clipStart 0 "a", QEv.decode 0 0] ++ QEv.ext EnvAct.supersede ::
        [QEv.attemptEnd 0 0 true, QEv.revoke 0 0]) ∧
    ((∀ j k, QEv.clipStart j k ∉ [QEv.attemptEnd 0 0 true, QEv.revoke 0 0]) ∧
     ¬ activeSession (playClips okAll envSupersedeAt0 demoClips 1 demoState).st
        (demoState.playSession + 1) ∧
     (∀ (q : QueueState) (sid1 sid2 : Nat),
       activeSession q sid1 → activeSession q sid2 → sid1 = sid2)) :=
  ⟨by decide, C3_supersede_halts_run okAll envSupersedeAt0 demoClips 1 demoState
      [QEv.clipStart 0 "a", QEv.decode 0 0]
      [QEv.attemptEnd 0 0 true, QEv.revoke 0 0] (by decide)⟩

/-- C4: after a `stop()` call recorded during an active run, no later clip of
that run ever starts; and `stop` itself synchronously sets `isSpeaking` to
false, `currentClipKey` to null and bumps the session counter. -/
theorem C4_stop_halts_run (ok : Nat → Nat → Bool) (env : Nat → List EnvAct)
    (clips : List PcmClip) (retryCount : Nat) (s : QueueState) (u v : List QEv)
    (h : (playClips ok env clips retryCount s).tr = u ++ QEv.ext EnvAct.stop :: v) :
    (∀ j k, QEv.clipStart j k ∉ v) ∧
    (∀ q : QueueState, (stop q).isSpeaking = false ∧ (stop q).currentClipKey = none ∧
      (stop q).playSession = q.playSession + 1) := by
  have hne := playClips_nonempty_of_split ok env clips retryCount s u v EnvAct.stop h
  constructor
  · rw [playClips_tr ok env clips retryCount s hne] at h
    exact runClips_no_clipStart_after_ext ok env retryCount (s.playSession + 1)
      clips 0 0 _ u EnvAct.stop v h
  · intro q
    exact ⟨rfl, rfl, rfl⟩

/-- Witness for C4: `stop()` arrives during playback of the first of two
clips; the second clip never starts. -/
theorem C4_witness :
    ((playClips okAll envStopAt0 demoClips 1 demoState).tr =
      [QEv.clipStart 0 "a", QEv.decode 0 0] ++ QEv.ext EnvAct.stop ::
        [QEv.attemptEnd 0 0 true, QEv.revoke 0 0]) ∧
    ((∀ j k, QEv.clipStart j k ∉ [QEv.attemptEnd 0 0 true, QEv.revoke 0 0]) ∧
     (∀ q : QueueState, (stop q).isSpeaking = false ∧ (stop q).currentClipKey = none ∧
       (stop q).playSession = q.playSession + 1)) :=
  ⟨by decide, C4_stop_halts_run okAll envStopAt0 demoClips 1 demoState
      [QEv.clipStart 0 "a", QEv.decode 0 0]
      [QEv.attemptEnd 0 0 true, QEv.revoke 0 0] (by decide)⟩

/-- C5 as stated is false on the code: the retry loop checks only the
attempt bound and the success flag, never the session counter, so after a
`stop()` recorded during a failing attempt the in-flight clip is decoded and
retried again.  Concretely: one clip, `retryCount = 1`, every attempt fails,
`stop()` arrives during the first attempt; the trace still contains the
second-attempt decode after the stop event. -/
theorem C5_counterexample :
    ¬ (∀ u v, (playClips okNone envStopAt0 demoClipA 1 demoState).tr =
          u ++ QEv.ext EnvAct.stop :: v →
        ∀ a, QEv.decode 0 a ∉ v) := by
  intro hclaim
  exact hclaim [QEv.clipStart 0 "a", QEv.decode 0 0]
    [QEv.attemptEnd 0 0 false, QEv.revoke 0 0, QEv.decode 0 1,
     QEv.attemptEnd 0 1 false, QEv.revoke 0 1] (by decide) 1 (by decide)

/-- C5 amended: after a cancellation (a `stop()` or a superseding
`playClips`) recorded during a run, no further clip ever starts and every
attempt's decoded resource is still created and revoked exactly once per
attempt; however, the in-flight clip's retry loop may still make its
remaining attempts, since it does not consult the session counter. -/
theorem C5_amended_cancellation (ok : Nat → Nat → Bool) (env : Nat → List EnvAct)
    (clips : List PcmClip) (retryCount : Nat) (s : QueueState) (u v : List QEv)
    (x : EnvAct)
    (h : (playClips ok env clips retryCount s).tr = u ++ QEv.ext x :: v) :
    (∀ j k, QEv.clipStart j k ∉ v) ∧
    (∀ i a, (playClips ok env clips retryCount s).tr.filter (resEvts i a) = [] ∨
      (playClips ok env clips retryCount s).tr.filter (resEvts i a) =
        [QEv.decode i a, QEv.revoke i a]) := by
  have hne := playClips_nonempty_of_split ok env clips retryCount s u v x h
  constructor
  · rw [playClips_tr ok env clips retryCount s hne] at h
    exact runClips_no_clipStart_after_ext ok env retryCount (s.playSession + 1)
      clips 0 0 _ u x v h
  · intro i a
    rw [playClips_tr ok env clips retryCount s hne]
    exact filter_resEvts_runClips_pair ok env retryCount (s.playSession + 1)
      clips 0 0 _ i a

/-- Witness for the amended C5 at the counterexample run: the abandoned
clip's resources are all released and no further clip starts, even though
the retry went on. -/
theorem C5_amended_witness :
    ((playClips okNone envStopAt0 demoClipA 1 demoState).tr =
      [QEv.clipStart 0 "a", QEv.decode 0 0] ++ QEv.ext EnvAct.stop ::
        [QEv.attemptEnd 0 0 false, QEv.revoke 0 0, QEv.decode 0 1,
         QEv.attemptEnd 0 1 false, QEv.revoke 0 1]) ∧
    ((∀ j k, QEv.clipStart j k ∉
        [QEv.attemptEnd 0 0 false, QEv.revoke 0 0, QEv.decode 0 1,
         QEv.attemptEnd 0 1 false, QEv.revoke 0 1]) ∧
     (∀ i a, (playClips okNone envStopAt0 demoClipA 1 demoState).tr.filter
          (resEvts i a) = [] ∨
        (playClips okNone envStopAt0 demoClipA 1 demoState).tr.filter (resEvts i a) =
          [QEv.decode i a, QEv.revoke i a])) :=
  ⟨by decide, C5_amended_cancellation okNone envStopAt0 demoClipA 1 demoState
      [QEv.clipStart 0 "a", QEv.decode 0 0]
      [QEv.attemptEnd 0 0 false, QEv.revoke 0 0, QEv.decode 0 1,
       QEv.attemptEnd 0 1 false, QEv.revoke 0 1] EnvAct.stop (by decide)⟩

/-- C6: in every `playClips` run, under every pattern of failures and
external calls (so also on the success, failure/retry and abandoned-attempt
paths), each attempt of each clip creates at most one transient resource,
and the resource events of attempt `a` of clip `i` are either absent (the
attempt never ran) or exactly one decode followed by exactly one revoke; in
particular decode and revoke counts agree per attempt. -/
theorem C6_resource_released_once_per_attempt (ok : Nat → Nat → Bool)
    (env : Nat → List EnvAct) (clips : List PcmClip) (retryCount : Nat)
    (s : QueueState) (i a : Nat) :
    ((playClips ok env clips retryCount s).tr.filter (resEvts i a) = [] ∨
     (playClips ok env clips retryCount s).tr.filter (resEvts i a) =
       [QEv.decode i a, QEv.revoke i a]) ∧
    (playClips ok env clips retryCount s).tr.count (QEv.decode i a) =
      (playClips ok env clips retryCount s).tr.count (QEv.revoke i a) ∧
    (playClips ok env clips retryCount s).tr.count (QEv.decode i a) ≤ 1 := by
  have hres : resEvts i a (QEv.decode i a) = true := by simp [resEvts]
  have hrev : resEvts i a (QEv.revoke i a) = true := by simp [resEvts]
  have hpair : (playClips ok env clips retryCount s).tr.filter (resEvts i a) = [] ∨
      (playClips ok env clips retryCount s).tr.filter (resEvts i a) =
        [QEv.decode i a, QEv.revoke i a] := by
    by_cases hne : clips = []
    · subst hne
      left
      simp [playClips]
    · rw [playClips_tr ok env clips retryCount s hne]
      exact filter_resEvts_runClips_pair ok env retryCount (s.playSession + 1)
        clips 0 0 _ i a
  have hd : ((playClips ok env clips retryCount s).tr.filter (resEvts i a)).count
      (QEv.decode i a) = (playClips ok env clips retryCount s).tr.count
        (QEv.decode i a) := List.count_filter hres
  have hv : ((playClips ok env clips retryCount s).tr.filter (resEvts i a)).count
      (QEv.revoke i a) = (playClips ok env clips retryCount s).tr.count
        (QEv.revoke i a) := List.count_filter hrev
  refine ⟨hpair, ?_, ?_⟩
  · rw [← hd, ← hv]
    rcases hpair with hh | hh <;> rw [hh] <;> simp
  · rw [← hd]
    rcases hpair with hh | hh <;> rw [hh] <;> simp

/-- C10: calling `playClips` with an empty clip list is a complete no-op: it
returns before touching the session counter, so the state (including
`isSpeaking`, `currentClipKey`, `failedClips` and the session counter) is
unchanged, no event is emitted, and any in-flight run keeps its session. -/
theorem C10_empty_clips_noop (ok : Nat → Nat → Bool) (env : Nat → List EnvAct)
    (retryCount : Nat) (s : QueueState) :
    (playClips ok env [] retryCount s).st = s ∧
    (playClips ok env [] retryCount s).tr = [] :=
  ⟨rfl, rfl⟩

end AudioQueue

namespace SpeakingTest

lemma part2SpeakingDurationOf_some (r : PartRecording) (d : ℚ)
    (hd : r.speakingDuration = some d) : part2SpeakingDurationOf (some r) = d := by
  simp [part2SpeakingDurationOf, hd]

/-- C7: the Part 2 fluency flag computed at submission assembly is true if
and only if the measured Part 2 speaking duration is strictly less than 80
seconds; a duration of exactly 80.0 seconds yields a false flag. -/
theorem C7_fluency_flag_iff (s : ControllerState) (r : PartRecording) (d : ℚ)
    (hr : lookupRec s.partRecordings 2 = some r)
    (hd : r.speakingDuration = some d) :
    ((assembleSubmission s).fluencyFlag = true ↔ d < 80) ∧
    (d = 80 → (assembleSubmission s).fluencyFlag = false) := by
  have hdur : part2SpeakingDurationOf (lookupRec s.partRecordings 2) = d := by
    rw [hr]
    exact part2SpeakingDurationOf_some r d hd
  constructor
  · simp [assembleSubmission, hdur, PART2_MIN_SPEAKING_SECONDS]
  · intro h80
    simp [assembleSubmission, hdur, h80, PART2_MIN_SPEAKING_SECONDS]

/-- Witness for C7 at the boundary: a state whose measured Part 2 duration is
exactly 80 seconds, for which the flag is false. -/
theorem C7_witness :
    (lookupRec demoController.partRecordings 2 = some demoRec2At80 ∧
     demoRec2At80.speakingDuration = some 80) ∧
    (((assembleSubmission demoController).fluencyFlag = true ↔ (80 : ℚ) < 80) ∧
     ((80 : ℚ) = 80 → (assembleSubmission demoController).fluencyFlag = false)) :=
  ⟨⟨rfl, rfl⟩, C7_fluency_flag_iff demoController demoRec2At80 80 rfl rfl⟩

/-- C8: when the evaluation request fails, `handleCompleteTest` rolls the
phase back from `submitting` to the interactive `part3_questions` phase,
surfaces a retryable error toast, and leaves the captured per-part
recordings exactly as they stood when the submission was assembled; it
neither navigates away nor reports success. -/
theorem C8_submission_failure_rollback (encode : List String → String) (now : ℚ)
    (testId : String) (s : ControllerState) :
    ((prepareSubmission encode now s).1.phase = TestPhase.submitting) ∧
    (handleCompleteTest encode now false testId s).phase = TestPhase.part3_questions ∧
    (handleCompleteTest encode now false testId s).errorToasts =
      (prepareSubmission encode now s).1.errorToasts + 1 ∧
    (handleCompleteTest encode now false testId s).partRecordings =
      (prepareSubmission encode now s).1.partRecordings ∧
    (handleCompleteTest encode now false testId s).navigatedTo =
      (prepareSubmission encode now s).1.navigatedTo ∧
    (handleCompleteTest encode now false testId s).successToasts =
      (prepareSubmission encode now s).1.successToasts := by
  refine ⟨rfl, ?_, ?_, ?_, ?_, ?_⟩ <;>
    simp [handleCompleteTest, submitOutcome]

end SpeakingTest

namespace Timer

open SpeakingTest

lemma effectCleanup_fields (s : TimerState) :
    (effectCleanup s).timerRef = s.timerRef ∧
    (effectCleanup s).nextId = s.nextId ∧
    (effectCleanup s).timeLeft = s.timeLeft ∧
    (effectCleanup s).fires = s.fires ∧
    (effectCleanup s).phase = s.phase := by
  cases h : s.timerRef <;> simp [effectCleanup, h]

lemma effectCleanup_empty (s : TimerState)
    (h1 : ∀ id ∈ s.installed, s.timerRef = some id)
    (h2 : s.installed.length ≤ 1) :
    (effectCleanup s).installed = [] := by
  cases href : s.timerRef with
  | none =>
    have hnil : s.installed = [] := by
      cases hi : s.installed with
      | nil => rfl
      | cons a l =>
        have ha := h1 a (by rw [hi]; exact List.mem_cons_self _ _)
        rw [href] at ha
        cases ha
    simp [effectCleanup, href, hnil]
  | some id =>
    cases hi : s.installed with
    | nil => simp [effectCleanup, href, hi]
    | cons a l =>
      have ha := h1 a (by rw [hi]; exact List.mem_cons_self _ _)
      rw [href] at ha
      injection ha with ha2
      cases l with
      | nil => simp [effectCleanup, href, hi, ha2]
      | cons b l2 =>
        rw [hi] at h2
        simp at h2

lemma runEffect_spec (s : TimerState)
    (h1 : ∀ id ∈ s.installed, s.timerRef = some id)
    (h2 : s.installed.length ≤ 1) :
    ((∀ id ∈ (runEffect s).installed, (runEffect s).timerRef = some id) ∧
     (runEffect s).installed.length ≤ 1 ∧
     (∀ id ∈ (runEffect s).installed, id < (runEffect s).nextId)) ∧
    (runEffect s).installed = (if s.timeLeft = 0 then [] else [s.nextId]) ∧
    (runEffect s).fires = s.fires ∧
    (runEffect s).timeLeft = s.timeLeft ∧
    (runEffect s).phase = s.phase := by
  obtain ⟨hr, hn, ht, hf, hp⟩ := effectCleanup_fields s
  have hc := effectCleanup_empty s h1 h2
  by_cases h0 : s.timeLeft = 0
  · have hbody : runEffect s = effectCleanup s := by
      rw [runEffect, effectBody, if_pos (by rw [ht]; exact h0)]
    rw [hbody, hc]
    simp [hr, hn, ht, hf, hp, h0]
  · have hbody : runEffect s = { effectCleanup s with
        installed := (effectCleanup s).installed ++ [(effectCleanup s).nextId],
        timerRef := some (effectCleanup s).nextId,
        nextId := (effectCleanup s).nextId + 1 } := by
      rw [runEffect, effectBody, if_neg (by rw [ht]; exact h0)]
    rw [hbody]
    simp [hr, hn, ht, hf, hp, h0, hc]

lemma applyTStep_inv (s : TimerState) (st : TStep)
    (h1 : ∀ id ∈ s.installed, s.timerRef = some id)
    (h2 : s.installed.length ≤ 1)
    (h3 : ∀ id ∈ s.installed, id < s.nextId) :
    (∀ id ∈ (applyTStep s st).installed, (applyTStep s st).timerRef = some id) ∧
    (applyTStep s st).installed.length ≤ 1 ∧
    (∀ id ∈ (applyTStep s st).installed, id < (applyTStep s st).nextId) := by
  cases st with
  | trans p tl =>
    exact (runEffect_spec { s with phase := p, timeLeft := tl } h1 h2).1
  | tick =>
    by_cases hemp : s.installed.isEmpty
    · simpa [applyTStep, hemp] using ⟨h1, h2, h3⟩
    · have hu : applyTStep s TStep.tick = tickRun s := by
        simp [applyTStep, hemp]
      rw [hu, tickRun]
      by_cases hle : s.timeLeft ≤ 1
      · rw [if_pos hle]
        exact (runEffect_spec { s with
          timeLeft := (handleTimeUp s.phase).2, phase := (handleTimeUp s.phase).1,
          fires := s.fires + 1, totalTestTime := s.totalTestTime + 1 } h1 h2).1
      · rw [if_neg hle]
        exact (runEffect_spec
          { s with timeLeft := s.timeLeft - 1, totalTestTime := s.totalTestTime + 1 }
          h1 h2).1

lemma runTSteps_inv (steps : List TStep) : ∀ s : TimerState,
    (∀ id ∈ s.installed, s.timerRef = some id) →
    s.installed.length ≤ 1 →
    (∀ id ∈ s.installed, id < s.nextId) →
    ((∀ id ∈ (runTSteps s steps).installed, (runTSteps s steps).timerRef = some id) ∧
     (runTSteps s steps).installed.length ≤ 1 ∧
     (∀ id ∈ (runTSteps s steps).installed, id < (runTSteps s steps).nextId)) := by
  induction steps with
  | nil => intro s h1 h2 h3; exact ⟨h1, h2, h3⟩
  | cons st rest ih =>
    intro s h1 h2 h3
    have h := applyTStep_inv s st h1 h2 h3
    have hfold : runTSteps s (st :: rest) = runTSteps (applyTStep s st) rest := by
      simp [runTSteps]
    rw [hfold]
    exact ih (applyTStep s st) h.1 h.2.1 h.2.2

end Timer

namespace Timer

open SpeakingTest

/-- C9: in every state reachable by ticks and phase transitions, at most one
interval is live; a phase transition clears the previous countdown's
interval before optionally starting a fresh one (no previously live interval
survives it); and a tick of a countdown standing at 1 invokes the
phase-specific time-up handler exactly once and clears the expiring
interval — when the handler does not start a new countdown, no interval
remains and a further tick is a no-op, so the handler cannot fire again. -/
theorem C9_timer_invariants (steps : List TStep) (p : TestPhase) (tl : Nat) :
    (runTSteps initTimer steps).installed.length ≤ 1 ∧
    List.Disjoint (runTSteps initTimer steps).installed
      (applyTStep (runTSteps initTimer steps) (TStep.trans p tl)).installed ∧
    ((runTSteps initTimer steps).timeLeft = 1 →
      (runTSteps initTimer steps).installed ≠ [] →
      (applyTStep (runTSteps initTimer steps) TStep.tick).fires =
        (runTSteps initTimer steps).fires + 1 ∧
      List.Disjoint (runTSteps initTimer steps).installed
        (applyTStep (runTSteps initTimer steps) TStep.tick).installed ∧
      ((handleTimeUp (runTSteps initTimer steps).phase).2 = 0 →
        (applyTStep (runTSteps initTimer steps) TStep.tick).installed = [] ∧
        applyTStep (applyTStep (runTSteps initTimer steps) TStep.tick) TStep.tick =
          applyTStep (runTSteps initTimer steps) TStep.tick)) := by
  obtain ⟨h1, h2, h3⟩ := runTSteps_inv steps initTimer
    (by intro id hid; simp [initTimer] at hid)
    (by simp [initTimer])
    (by intro id hid; simp [initTimer] at hid)
  set s := runTSteps initTimer steps with hs
  refine ⟨h2, ?_, ?_⟩
  · have hspec := runEffect_spec { s with phase := p, timeLeft := tl } h1 h2
    have hinstalled : (applyTStep s (TStep.trans p tl)).installed =
        (if tl = 0 then [] else [s.nextId]) := by
      rw [show applyTStep s (TStep.trans p tl) =
        runEffect { s with phase := p, timeLeft := tl } from rfl, hspec.2.1]
    intro id hid hmem
    rw [hinstalled] at hmem
    have h3id := h3 id hid
    by_cases h0 : tl = 0
    · rw [if_pos h0] at hmem
      simp at hmem
    · rw [if_neg h0] at hmem
      simp at hmem
      omega
  · intro ht hne
    have hne2 : s.installed.isEmpty = false := by
      simpa [List.isEmpty_iff] using hne
    have hle : s.timeLeft ≤ 1 := by omega
    have hstep : applyTStep s TStep.tick =
        runEffect ⟨(handleTimeUp s.phase).2, (handleTimeUp s.phase).1, s.timerRef,
          s.installed, s.nextId, s.fires + 1, s.totalTestTime + 1⟩ := by
      rw [show applyTStep s TStep.tick = tickRun s by simp [applyTStep, hne2]]
      unfold tickRun
      rw [if_pos hle]
    have hspec := runEffect_spec ⟨(handleTimeUp s.phase).2, (handleTimeUp s.phase).1,
      s.timerRef, s.installed, s.nextId, s.fires + 1, s.totalTestTime + 1⟩ h1 h2
    have hfires : (applyTStep s TStep.tick).fires = s.fires + 1 := by
      rw [hstep, hspec.2.2.1]
    have hinstalled : (applyTStep s TStep.tick).installed =
        (if (handleTimeUp s.phase).2 = 0 then [] else [s.nextId]) := by
      rw [hstep, hspec.2.1]
    refine ⟨hfires, ?_, ?_⟩
    · intro id hid hmem
      rw [hinstalled] at hmem
      have h3id := h3 id hid
      by_cases h0 : (handleTimeUp s.phase).2 = 0
      · rw [if_pos h0] at hmem
        simp at hmem
      · rw [if_neg h0] at hmem
        simp at hmem
        omega
    · intro h0
      have hinst : (applyTStep s TStep.tick).installed = [] := by
        rw [hinstalled, if_pos h0]
      refine ⟨hinst, ?_⟩
      generalize hx : applyTStep s TStep.tick = x at hinst ⊢
      have hxe : x.installed.isEmpty = true := by
        rw [hinst]
        rfl
      simp [applyTStep, hxe]

/-- Witness for C9 at a concrete countdown: the Part 1 answer window standing
at one second; the tick fires the handler exactly once and leaves no live
interval, and a further tick changes nothing. -/
theorem C9_witness :
    (runTSteps initTimer demoTSteps).timeLeft = 1 ∧
    (runTSteps initTimer demoTSteps).installed ≠ [] ∧
    (handleTimeUp (runTSteps initTimer demoTSteps).phase).2 = 0 ∧
    (applyTStep (runTSteps initTimer demoTSteps) TStep.tick).fires =
      (runTSteps initTimer demoTSteps).fires + 1 ∧
    (applyTStep (runTSteps initTimer demoTSteps) TStep.tick).installed = [] ∧
    applyTStep (applyTStep (runTSteps initTimer demoTSteps) TStep.tick) TStep.tick =
      applyTStep (runTSteps initTimer demoTSteps) TStep.tick ∧
    (runTSteps initTimer demoTSteps).installed.length ≤ 1 :=
  ⟨by decide, by decide, by decide,
   ((C9_timer_invariants demoTSteps TestPhase.part2_prep 60).2.2
     (by decide) (by decide)).1,
   (((C9_timer_invariants demoTSteps TestPhase.part2_prep 60).2.2
     (by decide) (by decide)).2.2 (by decide)).1,
   (((C9_timer_invariants demoTSteps TestPhase.part2_prep 60).2.2
     (by decide) (by decide)).2.2 (by decide)).2,
   (C9_timer_invariants demoTSteps TestPhase.part2_prep 60).1⟩

end Timer
